import Mathlib

/-!
# Verification of the warpgate reverse proxy core

Shallow embedding of the warpgate source (Go) into Lean 4, covering the
subsystems the specification's claims are about:

* the round-robin cluster with per-endpoint circuit breaker
  (`internal/cluster/roundrobin.go`, `internal/cluster/cluster.go`);
* cache-expiry computation (`internal/proxy/engine.go`, `computeExpiry`);
* the director's request rewriting and `X-Forwarded-For` construction
  (`internal/proxy/director.go`);
* the IP-filter middleware (`middleware` package, `ipFilter`);
* the in-memory LRU response cache (`cache.InMemoryCache`).

Go `time.Time` values are modelled as `Nat` instants, with `0` playing the
role of the zero `time.Time` (`IsZero`); `time.Now()` always yields a
positive instant, so the two never collide.  `time.Duration` values are
modelled as `Int` nanoseconds.  Machine-integer overflow is irrelevant at
the magnitudes involved, so counters are `Nat`.
-/

namespace Warpgate

/-! ## Cluster layer: `internal/cluster` -/

/-- The `cluster.Endpoint` (cluster.go).  The `URL` is represented by the string
it was parsed from; `hcSuccesses`/`hcFailures` drive only the health-probe
loop (network I/O, outside this embedding) and are omitted; the `Alive`
flag is retained because selection reads it. -/
structure Endpoint where
  url : String
  alive : Bool
  cbFailures : Nat
  circuitOpenUntil : Nat
  deriving Repr, DecidableEq

instance : Inhabited Endpoint := ⟨⟨"", false, 0, 0⟩⟩

/-- The `cluster.CircuitBreakerConfig` (cluster.go).  `Cooldown` is a
`time.Duration`, kept as a `Nat` number of time units. -/
structure CircuitBreakerConfig where
  consecutiveFailures : Nat
  cooldown : Nat
  deriving Repr, DecidableEq

/-- The mutable state of a `roundRobin` cluster (roundrobin.go): the
endpoint list, the cursor `idx`, and the optional breaker configuration.
The mutex and the health-check configuration (which only feed the probe
goroutine) carry no selection-relevant state. -/
structure RoundRobin where
  name : String
  endpoints : List Endpoint
  idx : Nat
  cbCfg : Option CircuitBreakerConfig
  deriving Repr, DecidableEq

/-- The `NewRoundRobinCluster` (roundrobin.go lines 22-33): marks every endpoint
alive; endpoints arrive from configuration with zero-valued counters and a
zero `circuitOpenUntil`. -/
def newRoundRobinCluster (name : String) (urls : List String)
    (cb : Option CircuitBreakerConfig) : RoundRobin :=
  { name := name
    endpoints := urls.map (fun u => { url := u, alive := true, cbFailures := 0, circuitOpenUntil := 0 })
    idx := 0
    cbCfg := cb }

/-- One iteration of the selection loop in `PickEndpoint` (roundrobin.go
lines 50-67), with `fuel` standing for the remaining loop iterations
(`n - i`).  Each iteration reads the endpoint at the cursor (Go's
`ep := c.endpoints[c.idx]`, here repeated reads of
`c.endpoints.getD c.idx default`), advances the cursor, skips dead
endpoints and endpoints whose circuit deadline is in the future
(`now.Before`), clears the breaker in place when the deadline is strictly
past (`now.After`), and returns the selected index.  The cursor can never
leave `[0, n)` in the source, so the `getD` default is unreachable there. -/
def pickLoop (now n : Nat) : Nat → RoundRobin → RoundRobin × Option Nat
  | 0, c => (c, none)
  | fuel + 1, c =>
    if !(c.endpoints.getD c.idx default).alive then
      pickLoop now n fuel { c with idx := (c.idx + 1) % n }
    else if (c.endpoints.getD c.idx default).circuitOpenUntil ≠ 0 ∧
        now < (c.endpoints.getD c.idx default).circuitOpenUntil then
      pickLoop now n fuel { c with idx := (c.idx + 1) % n }
    else if (c.endpoints.getD c.idx default).circuitOpenUntil ≠ 0 ∧
        (c.endpoints.getD c.idx default).circuitOpenUntil < now then
      ({ c with
          idx := (c.idx + 1) % n,
          endpoints := c.endpoints.set c.idx
            { c.endpoints.getD c.idx default with circuitOpenUntil := 0, cbFailures := 0 } },
       some c.idx)
    else
      ({ c with idx := (c.idx + 1) % n }, some c.idx)

/-- The `PickEndpoint` (roundrobin.go lines 39-70).  Returns the updated cluster
state together with the index of the selected endpoint (`none` models the
two error returns). -/
def pickEndpoint (c : RoundRobin) (now : Nat) : RoundRobin × Option Nat :=
  if c.endpoints.length = 0 then (c, none)
  else pickLoop now c.endpoints.length c.endpoints.length c

/-- The `ReportSuccess` (roundrobin.go lines 72-76): zero the endpoint's
consecutive-failure counter.  Endpoints are addressed by index in place of
the Go pointer. -/
def reportSuccess (c : RoundRobin) (i : Nat) : RoundRobin :=
  { c with endpoints :=
      c.endpoints.set i { c.endpoints.getD i default with cbFailures := 0 } }

/-- The `ReportFailure` (roundrobin.go lines 78-86): increment the counter; when
a breaker is configured and the incremented counter has reached the
threshold, also set the circuit deadline to `now + cooldown`. -/
def reportFailure (c : RoundRobin) (i : Nat) (now : Nat) : RoundRobin :=
  match c.cbCfg with
  | some cfg =>
    if cfg.consecutiveFailures ≤ (c.endpoints.getD i default).cbFailures + 1 then
      { c with
          endpoints := c.endpoints.set i
            { c.endpoints.getD i default with
                cbFailures := (c.endpoints.getD i default).cbFailures + 1
                circuitOpenUntil := now + cfg.cooldown } }
    else
      { c with
          endpoints := c.endpoints.set i
            { c.endpoints.getD i default with
                cbFailures := (c.endpoints.getD i default).cbFailures + 1 } }
  | none =>
      { c with
          endpoints := c.endpoints.set i
            { c.endpoints.getD i default with
                cbFailures := (c.endpoints.getD i default).cbFailures + 1 } }

/-- The cluster operations the specification quantifies over.  `pick` and
`reportFailure` carry the instant `time.Now()` observed inside the call. -/
inductive ClusterOp where
  | pick (now : Nat)
  | reportSuccess (i : Nat)
  | reportFailure (i : Nat) (now : Nat)
  deriving Repr, DecidableEq

/-- Returns `true` exactly on `ReportSuccess` operations. -/
def isReportSuccess : ClusterOp → Bool
  | .reportSuccess _ => true
  | _ => false

/-- Apply one cluster operation (the lock serialises them, so a sequence of
operations is a sequence of state transitions). -/
def clusterStep (c : RoundRobin) : ClusterOp → RoundRobin
  | .pick now => (pickEndpoint c now).1
  | .reportSuccess i => reportSuccess c i
  | .reportFailure i now => reportFailure c i now

/-- Apply a sequence of cluster operations in order. -/
def clusterRun (c : RoundRobin) (ops : List ClusterOp) : RoundRobin :=
  ops.foldl clusterStep c

/-- Spec §8 invariant 2, for a cluster with breaker configuration `cfg`:
every endpoint with a non-zero circuit deadline has accumulated at least
`cfg.consecutiveFailures` consecutive failures. -/
def BreakerInvariant (cfg : CircuitBreakerConfig) (c : RoundRobin) : Prop :=
  ∀ ep ∈ c.endpoints, ep.circuitOpenUntil ≠ 0 → cfg.consecutiveFailures ≤ ep.cbFailures

instance (cfg : CircuitBreakerConfig) (c : RoundRobin) :
    Decidable (BreakerInvariant cfg c) := by
  unfold BreakerInvariant; infer_instance

/-- Run a sequence of `pick` calls at the given instants, recording the URL
of the endpoint selected by each call (`none` = error return). -/
def pickSeq (c : RoundRobin) : List Nat → List (Option String)
  | [] => []
  | t :: ts =>
    let r := pickEndpoint c t
    (r.2.map fun i => (c.endpoints.getD i default).url) :: pickSeq r.1 ts

/-! ### Breaker-invariant machinery (claims C1-C4) -/

/-- Setting a breaker-cleared endpoint anywhere preserves the breaker
invariant. -/
theorem breakerInvariant_set_cleared (cfg : CircuitBreakerConfig) (c : RoundRobin)
    (i : Nat) (ep : Endpoint) (hep : ep.circuitOpenUntil = 0)
    (h : BreakerInvariant cfg c) :
    BreakerInvariant cfg { c with endpoints := c.endpoints.set i ep } := by
  intro x hx
  rcases List.mem_or_eq_of_mem_set hx with hx' | rfl
  · exact h x hx'
  · intro hne
    exact absurd hep hne

/-- The `pickLoop` never touches the breaker configuration. -/
theorem pickLoop_cbCfg (now n : Nat) (fuel : Nat) :
    ∀ c : RoundRobin, (pickLoop now n fuel c).1.cbCfg = c.cbCfg := by
  induction fuel with
  | zero => intro c; rfl
  | succ fuel ih =>
    intro c
    unfold pickLoop
    split
    · exact ih _
    · split
      · exact ih _
      · split
        · rfl
        · rfl

/-- The `clusterStep` never touches the breaker configuration. -/
theorem clusterStep_cbCfg (c : RoundRobin) (op : ClusterOp) :
    (clusterStep c op).cbCfg = c.cbCfg := by
  cases op with
  | pick now =>
    show (pickEndpoint c now).1.cbCfg = c.cbCfg
    unfold pickEndpoint
    split
    · rfl
    · exact pickLoop_cbCfg _ _ _ _
  | reportSuccess i => rfl
  | reportFailure i now =>
    show (reportFailure c i now).cbCfg = c.cbCfg
    unfold reportFailure
    cases c.cbCfg with
    | none => rfl
    | some cfg =>
      dsimp only
      split
      · rfl
      · rfl

/-- The selection loop preserves the breaker invariant: the only endpoint
mutation it performs clears both breaker fields at once. -/
theorem breakerInvariant_pickLoop (cfg : CircuitBreakerConfig) (now n : Nat)
    (fuel : Nat) :
    ∀ c : RoundRobin, BreakerInvariant cfg c →
      BreakerInvariant cfg (pickLoop now n fuel c).1 := by
  induction fuel with
  | zero => intro c h; exact h
  | succ fuel ih =>
    intro c h
    unfold pickLoop
    split
    · exact ih _ h
    · split
      · exact ih _ h
      · split
        · exact breakerInvariant_set_cleared cfg _ _ _ rfl h
        · exact h

/-- The `PickEndpoint` preserves the breaker invariant. -/
theorem breakerInvariant_pickEndpoint (cfg : CircuitBreakerConfig)
    (c : RoundRobin) (now : Nat) (h : BreakerInvariant cfg c) :
    BreakerInvariant cfg (pickEndpoint c now).1 := by
  unfold pickEndpoint
  split
  · exact h
  · exact breakerInvariant_pickLoop cfg now _ _ c h

/-- The `ReportFailure` preserves the breaker invariant when the cluster's
breaker configuration is `cfg`: the deadline is only (re)set together with
a counter already at or above the threshold. -/
theorem breakerInvariant_reportFailure (cfg : CircuitBreakerConfig)
    (c : RoundRobin) (i now : Nat) (hcfg : c.cbCfg = some cfg)
    (h : BreakerInvariant cfg c) :
    BreakerInvariant cfg (reportFailure c i now) := by
  unfold reportFailure
  rw [hcfg]
  dsimp only
  split
  · next hthr =>
    intro x hx
    rcases List.mem_or_eq_of_mem_set hx with hx' | rfl
    · exact h x hx'
    · intro _
      exact hthr
  · next hthr =>
    intro x hx
    rcases List.mem_or_eq_of_mem_set hx with hx' | rfl
    · exact h x hx'
    · intro hne
      by_cases hi : i < c.endpoints.length
      · have hmem : c.endpoints.getD i default ∈ c.endpoints := by
          rw [List.getD_eq_getElem _ _ hi]
          exact List.getElem_mem hi
        exact Nat.le_succ_of_le (h _ hmem hne)
      · have hd : c.endpoints.getD i default = default :=
          List.getD_eq_default _ _ (Nat.le_of_not_lt hi)
        rw [hd] at hne
        exact absurd rfl hne

/-- A single cluster operation other than `ReportSuccess` preserves the
breaker invariant. -/
theorem breakerInvariant_clusterStep (cfg : CircuitBreakerConfig)
    (c : RoundRobin) (op : ClusterOp) (hcfg : c.cbCfg = some cfg)
    (hop : isReportSuccess op = false) (h : BreakerInvariant cfg c) :
    BreakerInvariant cfg (clusterStep c op) := by
  cases op with
  | pick now => exact breakerInvariant_pickEndpoint cfg c now h
  | reportSuccess i => simp [isReportSuccess] at hop
  | reportFailure i now => exact breakerInvariant_reportFailure cfg c i now hcfg h

/-- A freshly constructed cluster satisfies the breaker invariant (every
circuit deadline is zero). -/
theorem breakerInvariant_new (cfg : CircuitBreakerConfig) (name : String)
    (urls : List String) (cb : Option CircuitBreakerConfig) :
    BreakerInvariant cfg (newRoundRobinCluster name urls cb) := by
  intro x hx
  rcases List.mem_map.mp hx with ⟨u, _, rfl⟩
  intro hne
  exact absurd rfl hne

/-- C1, corrected.  Over every sequence of `PickEndpoint` /
`ReportFailure` operations on a freshly built cluster whose breaker is
configured with `cfg`, every endpoint with a non-zero `circuitOpenUntil`
has `cbFailures ≥ cfg.consecutiveFailures`.  (`ReportSuccess` must be
excluded: it zeroes `cbFailures` without clearing `circuitOpenUntil`,
which is what refutes the claim as stated.) -/
theorem breaker_invariant_no_reportSuccess (name : String) (urls : List String)
    (cfg : CircuitBreakerConfig) (ops : List ClusterOp)
    (hops : ∀ op ∈ ops, isReportSuccess op = false) :
    BreakerInvariant cfg
      (clusterRun (newRoundRobinCluster name urls (some cfg)) ops) := by
  have key : ∀ (l : List ClusterOp) (c : RoundRobin), c.cbCfg = some cfg →
      BreakerInvariant cfg c → (∀ op ∈ l, isReportSuccess op = false) →
      BreakerInvariant cfg (clusterRun c l) := by
    intro l
    induction l with
    | nil => intro c _ h _; exact h
    | cons op l ih =>
      intro c hcfg h hl
      exact ih (clusterStep c op)
        ((clusterStep_cbCfg c op).trans hcfg)
        (breakerInvariant_clusterStep cfg c op hcfg (hl op (List.mem_cons_self op l)) h)
        (fun o ho => hl o (List.mem_cons_of_mem op ho))
  exact key ops _ rfl (breakerInvariant_new cfg name urls _) hops

/-- Witness for C1's corrected theorem: threshold 2, two failures open the
circuit, a further pick and failure keep the invariant. -/
theorem breaker_invariant_no_reportSuccess_witness :
    BreakerInvariant ⟨2, 7⟩
      (clusterRun (newRoundRobinCluster "w" ["a"] (some ⟨2, 7⟩))
        [.reportFailure 0 3, .reportFailure 0 4, .pick 5, .reportFailure 0 6]) :=
  breaker_invariant_no_reportSuccess "w" ["a"] ⟨2, 7⟩
    [.reportFailure 0 3, .reportFailure 0 4, .pick 5, .reportFailure 0 6]
    (by decide)

/-- C1, counterexample to the claim as stated: with threshold 1, one
`ReportFailure` opens the circuit, after which one `ReportSuccess` resets
`cbFailures` to 0 while `circuitOpenUntil` stays non-zero — so the
invariant fails even though every operation was a legal cluster
operation. -/
theorem breaker_invariant_counterexample :
    ¬ BreakerInvariant ⟨1, 10⟩
      (clusterRun (newRoundRobinCluster "c" ["a"] (some ⟨1, 10⟩))
        [.reportFailure 0 1, .reportSuccess 0]) := by
  decide

/-- An endpoint the selection loop skips: dead, or circuit open with the
deadline still in the future at `now`. -/
def Skippable (now : Nat) (ep : Endpoint) : Prop :=
  ep.alive = false ∨ (ep.circuitOpenUntil ≠ 0 ∧ now < ep.circuitOpenUntil)

/-- Walking the selection loop over `k` skippable endpoints to an alive
endpoint whose circuit deadline is strictly past: the loop clears that
endpoint's breaker state in place, leaves the cursor just after it, and
returns its index. -/
theorem pickLoop_reaches_clear (now n : Nat) (fuel : Nat) :
    ∀ (k : Nat) (c : RoundRobin), c.endpoints.length = n → c.idx < n → k < fuel →
      (∀ j, j < k → Skippable now (c.endpoints.getD ((c.idx + j) % n) default)) →
      (c.endpoints.getD ((c.idx + k) % n) default).alive = true →
      (c.endpoints.getD ((c.idx + k) % n) default).circuitOpenUntil ≠ 0 →
      (c.endpoints.getD ((c.idx + k) % n) default).circuitOpenUntil < now →
      pickLoop now n fuel c =
        ({ c with
            idx := ((c.idx + k) % n + 1) % n,
            endpoints := c.endpoints.set ((c.idx + k) % n)
              { c.endpoints.getD ((c.idx + k) % n) default with
                  circuitOpenUntil := 0, cbFailures := 0 } },
         some ((c.idx + k) % n)) := by
  induction fuel with
  | zero => intro k c _ _ hk _ _ _ _; exact absurd hk (Nat.not_lt_zero k)
  | succ f ih =>
    intro k c hlen hidx hk hskip halive hopen hpast
    cases k with
    | zero =>
      have hp : (c.idx + 0) % n = c.idx := by
        rw [Nat.add_zero, Nat.mod_eq_of_lt hidx]
      rw [hp] at halive hopen hpast ⊢
      unfold pickLoop
      rw [if_neg (by rw [halive]; decide), if_neg (by omega), if_pos ⟨hopen, hpast⟩]
    | succ j =>
      have hp0 : (c.idx + 0) % n = c.idx := by
        rw [Nat.add_zero, Nat.mod_eq_of_lt hidx]
      have h0 := hskip 0 (Nat.succ_pos j)
      rw [hp0] at h0
      have hn0 : 0 < n := lt_of_le_of_lt (Nat.zero_le _) hidx
      have hmod : ∀ j2 : Nat, ((c.idx + 1) % n + j2) % n = (c.idx + (j2 + 1)) % n := by
        intro j2
        rw [Nat.mod_add_mod, Nat.add_assoc, Nat.add_comm 1 j2]
      have hrec := ih j { c with idx := (c.idx + 1) % n } hlen (Nat.mod_lt _ hn0)
        (by omega)
        (fun j2 hj2 => by
          show Skippable now (c.endpoints.getD (((c.idx + 1) % n + j2) % n) default)
          rw [hmod j2]
          exact hskip (j2 + 1) (by omega))
        (by show (c.endpoints.getD (((c.idx + 1) % n + j) % n) default).alive = true
            rw [hmod j]; exact halive)
        (by show (c.endpoints.getD (((c.idx + 1) % n + j) % n) default).circuitOpenUntil ≠ 0
            rw [hmod j]; exact hopen)
        (by show (c.endpoints.getD (((c.idx + 1) % n + j) % n) default).circuitOpenUntil < now
            rw [hmod j]; exact hpast)
      by_cases ha : (c.endpoints.getD c.idx default).alive = true
      · have hof : (c.endpoints.getD c.idx default).circuitOpenUntil ≠ 0 ∧
            now < (c.endpoints.getD c.idx default).circuitOpenUntil := by
          rcases h0 with hd | hof
          · rw [ha] at hd; cases hd
          · exact hof
        unfold pickLoop
        rw [if_neg (by rw [ha]; decide), if_pos hof, ← hmod j]
        exact hrec
      · have hd : (c.endpoints.getD c.idx default).alive = false := by
          simpa using ha
        unfold pickLoop
        rw [if_pos (by rw [hd]; decide), ← hmod j]
        exact hrec

/-- C2, corrected.  The first `PickEndpoint` call that reaches an open
endpoint — the `k` endpoints examined before it in the lap all being
skippable — at an instant *strictly* after its deadline (`now.After`)
clears `circuitOpenUntil` and `cbFailures` in place and returns that
endpoint (it being alive).  (The claim's `now ≥ circuitOpenUntil` is
refuted at `now = circuitOpenUntil`, where the source returns the
endpoint without clearing the breaker state.) -/
theorem pick_clears_breaker_strictly_after (c : RoundRobin) (now k : Nat)
    (hidx : c.idx < c.endpoints.length)
    (hk : k < c.endpoints.length)
    (hskip : ∀ j, j < k →
      Skippable now (c.endpoints.getD ((c.idx + j) % c.endpoints.length) default))
    (halive : (c.endpoints.getD ((c.idx + k) % c.endpoints.length) default).alive = true)
    (hopen : (c.endpoints.getD ((c.idx + k) % c.endpoints.length) default).circuitOpenUntil ≠ 0)
    (hpast : (c.endpoints.getD ((c.idx + k) % c.endpoints.length) default).circuitOpenUntil < now) :
    pickEndpoint c now =
      ({ c with
          idx := ((c.idx + k) % c.endpoints.length + 1) % c.endpoints.length,
          endpoints := c.endpoints.set ((c.idx + k) % c.endpoints.length)
            { c.endpoints.getD ((c.idx + k) % c.endpoints.length) default with
                circuitOpenUntil := 0, cbFailures := 0 } },
       some ((c.idx + k) % c.endpoints.length)) := by
  unfold pickEndpoint
  rw [if_neg (by omega)]
  exact pickLoop_reaches_clear now c.endpoints.length c.endpoints.length k c rfl hidx hk
    hskip halive hopen hpast

/-- Witness for C2's corrected theorem: a dead endpoint is skipped, then
the open endpoint with deadline 4 is reached at instant 9, cleared, and
returned. -/
theorem pick_clears_breaker_strictly_after_witness :
    (pickEndpoint ⟨"cb", [⟨"d", false, 0, 0⟩, ⟨"a", true, 3, 4⟩], 0, none⟩ 9).2 = some 1 ∧
    ((pickEndpoint ⟨"cb", [⟨"d", false, 0, 0⟩, ⟨"a", true, 3, 4⟩], 0, none⟩ 9).1.endpoints.getD 1
      default).circuitOpenUntil = 0 ∧
    ((pickEndpoint ⟨"cb", [⟨"d", false, 0, 0⟩, ⟨"a", true, 3, 4⟩], 0, none⟩ 9).1.endpoints.getD 1
      default).cbFailures = 0 := by
  rw [pick_clears_breaker_strictly_after ⟨"cb", [⟨"d", false, 0, 0⟩, ⟨"a", true, 3, 4⟩], 0, none⟩ 9 1
    (by decide) (by decide)
    (fun j hj => by
      have hj0 : j = 0 := by omega
      subst hj0
      exact Or.inl (by decide))
    (by decide) (by decide) (by decide)]
  exact ⟨rfl, rfl, rfl⟩

/-- C2, counterexample to the claim as stated: at `now = circuitOpenUntil`
(`now ≥ circuitOpenUntil` holds), `PickEndpoint` returns the endpoint but
clears neither `circuitOpenUntil` nor `cbFailures`. -/
theorem pick_at_deadline_counterexample :
    (pickEndpoint ⟨"cb", [⟨"a", true, 2, 5⟩], 0, some ⟨2, 10⟩⟩ 5).2 = some 0 ∧
    ¬ (((pickEndpoint ⟨"cb", [⟨"a", true, 2, 5⟩], 0, some ⟨2, 10⟩⟩ 5).1.endpoints.getD 0
          default).circuitOpenUntil = 0 ∧
        ((pickEndpoint ⟨"cb", [⟨"a", true, 2, 5⟩], 0, some ⟨2, 10⟩⟩ 5).1.endpoints.getD 0
          default).cbFailures = 0) := by
  decide

/-- The selection loop advances the cursor once per iteration it runs:
with positive fuel the final cursor is `(idx + k) % n` for some
`1 ≤ k ≤ fuel`. -/
theorem pickLoop_idx_advance (now n : Nat) (fuel : Nat) :
    ∀ c : RoundRobin, 1 ≤ fuel → ∃ k, 1 ≤ k ∧ k ≤ fuel ∧
      (pickLoop now n fuel c).1.idx = (c.idx + k) % n := by
  induction fuel with
  | zero => intro c h; exact absurd h (by omega)
  | succ f ih =>
    intro c _
    have hstep : ∀ c1 : RoundRobin, c1.idx = (c.idx + 1) % n →
        ∃ k, 1 ≤ k ∧ k ≤ f + 1 ∧ (pickLoop now n f c1).1.idx = (c.idx + k) % n := by
      intro c1 h1
      cases f with
      | zero =>
        exact ⟨1, le_refl 1, le_refl 1, h1⟩
      | succ f2 =>
        obtain ⟨k, hk1, hk2, hk3⟩ := ih c1 (by omega)
        refine ⟨k + 1, by omega, by omega, ?_⟩
        rw [hk3, h1, Nat.mod_add_mod, Nat.add_assoc, Nat.add_comm 1 k]
    unfold pickLoop
    split
    · exact hstep _ rfl
    · split
      · exact hstep _ rfl
      · refine ⟨1, le_refl 1, by omega, ?_⟩
        split
        · rfl
        · rfl

/-- C3, corrected.  A `PickEndpoint` call on a non-empty cluster advances
the cursor once per endpoint it examines: afterwards the cursor equals
`(cursor + k) mod N` for some `1 ≤ k ≤ N` — not necessarily `k = 1`.
When every endpoint is alive with a closed circuit, exactly one endpoint
is examined and the cursor advances exactly once. -/
theorem pick_advances_cursor_once_when_all_eligible (c : RoundRobin) (now : Nat)
    (h0 : 0 < c.endpoints.length) :
    (∃ k, 1 ≤ k ∧ k ≤ c.endpoints.length ∧
      (pickEndpoint c now).1.idx = (c.idx + k) % c.endpoints.length) ∧
    (c.idx < c.endpoints.length →
      (∀ ep ∈ c.endpoints, ep.alive = true ∧ ep.circuitOpenUntil = 0) →
      (pickEndpoint c now).1.idx = (c.idx + 1) % c.endpoints.length) := by
  constructor
  · unfold pickEndpoint
    rw [if_neg (by omega)]
    exact pickLoop_idx_advance now c.endpoints.length c.endpoints.length c (by omega)
  · intro hidx helig
    have hmem : c.endpoints.getD c.idx default ∈ c.endpoints := by
      rw [List.getD_eq_getElem _ _ hidx]
      exact List.getElem_mem hidx
    obtain ⟨halive, hclosed⟩ := helig _ hmem
    unfold pickEndpoint
    rw [if_neg (by omega)]
    obtain ⟨m, hm⟩ : ∃ m, c.endpoints.length = m + 1 :=
      ⟨c.endpoints.length - 1, by omega⟩
    rw [hm]
    unfold pickLoop
    rw [if_neg (by rw [halive]; decide), if_neg (by rw [hclosed]; simp),
      if_neg (by rw [hclosed]; simp)]

/-- Witness for C3's corrected theorem: two healthy endpoints, cursor 0,
one call moves the cursor to 1 (and some `1 ≤ k ≤ 2` realises it). -/
theorem pick_advances_cursor_once_when_all_eligible_witness :
    (∃ k, 1 ≤ k ∧ k ≤ (⟨"c", [⟨"a", true, 0, 0⟩, ⟨"b", true, 0, 0⟩], 0, none⟩ :
        RoundRobin).endpoints.length ∧
      (pickEndpoint ⟨"c", [⟨"a", true, 0, 0⟩, ⟨"b", true, 0, 0⟩], 0, none⟩ 7).1.idx =
        ((⟨"c", [⟨"a", true, 0, 0⟩, ⟨"b", true, 0, 0⟩], 0, none⟩ : RoundRobin).idx + k) %
          (⟨"c", [⟨"a", true, 0, 0⟩, ⟨"b", true, 0, 0⟩], 0, none⟩ :
            RoundRobin).endpoints.length) ∧
    (pickEndpoint ⟨"c", [⟨"a", true, 0, 0⟩, ⟨"b", true, 0, 0⟩], 0, none⟩ 7).1.idx =
      ((⟨"c", [⟨"a", true, 0, 0⟩, ⟨"b", true, 0, 0⟩], 0, none⟩ : RoundRobin).idx + 1) %
        (⟨"c", [⟨"a", true, 0, 0⟩, ⟨"b", true, 0, 0⟩], 0, none⟩ :
          RoundRobin).endpoints.length :=
  ⟨(pick_advances_cursor_once_when_all_eligible
      ⟨"c", [⟨"a", true, 0, 0⟩, ⟨"b", true, 0, 0⟩], 0, none⟩ 7 (by decide)).1,
   (pick_advances_cursor_once_when_all_eligible
      ⟨"c", [⟨"a", true, 0, 0⟩, ⟨"b", true, 0, 0⟩], 0, none⟩ 7 (by decide)).2
    (by decide) (by decide)⟩

/-- C3, counterexample to the claim as stated: with a dead endpoint at the
cursor, one `PickEndpoint` call advances the cursor twice, so the final
cursor differs from `(cursor + 1) mod N`. -/
theorem pick_advances_cursor_counterexample :
    ¬ ((pickEndpoint ⟨"c", [⟨"a", false, 0, 0⟩, ⟨"b", true, 0, 0⟩], 0, none⟩ 1).1.idx =
        ((⟨"c", [⟨"a", false, 0, 0⟩, ⟨"b", true, 0, 0⟩], 0, none⟩ : RoundRobin).idx + 1) %
          (⟨"c", [⟨"a", false, 0, 0⟩, ⟨"b", true, 0, 0⟩], 0, none⟩ : RoundRobin).endpoints.length) := by
  decide

/-- C4, confirmed.  On a cluster of two alive endpoints `A`, `B` with both
circuits closed, four sequential `PickEndpoint` calls — at arbitrary
instants — return `A, B, A, B`, each call succeeding. -/
theorem pick_round_robin_two_endpoints (t1 t2 t3 t4 : Nat) :
    pickSeq (newRoundRobinCluster "c" ["A", "B"] none) [t1, t2, t3, t4] =
      [some "A", some "B", some "A", some "B"] := by
  simp [pickSeq, pickEndpoint, pickLoop, newRoundRobinCluster]

/-! ## Cache-expiry computation: `computeExpiry` (internal/proxy/engine.go)

Go strings are modelled as `List Char` (the values involved are ASCII, so
byte indexing and rune indexing agree, and Go's Unicode-aware
`strings.ToLower` / `strings.TrimSpace` agree with the ASCII versions
below). -/

/-- The `unicode.IsSpace` for the characters `strings.TrimSpace` trims
(ASCII range plus NEL and NBSP). -/
def isGoSpace (c : Char) : Bool :=
  c == ' ' || c == '\t' || c == '\n' || c.toNat == 11 || c.toNat == 12 ||
    c == '\r' || c.toNat == 0x85 || c.toNat == 0xA0

/-- The `strings.TrimSpace`. -/
def trimSpaceChars (s : List Char) : List Char :=
  ((s.dropWhile isGoSpace).reverse.dropWhile isGoSpace).reverse

/-- The `strings.ToLower`, ASCII case mapping. -/
def toLowerChars (s : List Char) : List Char :=
  s.map fun c => if 'A' ≤ c ∧ c ≤ 'Z' then Char.ofNat (c.toNat + 32) else c

/-- The `strings.TrimPrefix`: drop `pre` when it is a (case-sensitive!) prefix,
otherwise return the string unchanged. -/
def goTrimPre (s pre : List Char) : List Char :=
  if pre.isPrefixOf s then s.drop pre.length else s

/-- The `strings.Split(s, ",")`: split at every comma;
`Split("", ",") = [""]`. -/
def splitOnComma : List Char → List (List Char)
  | [] => [[]]
  | c :: rest =>
    if c == ',' then [] :: splitOnComma rest
    else
      match splitOnComma rest with
      | [] => [[c]]
      | g :: gs => (c :: g) :: gs

/-- The unit table of Go `time.ParseDuration` (nanoseconds per unit). -/
def unitNanos : String → Option Nat
  | "ns" => some 1
  | "us" => some 1000
  | "µs" => some 1000
  | "μs" => some 1000
  | "ms" => some 1000000
  | "s" => some 1000000000
  | "m" => some 60000000000
  | "h" => some 3600000000000
  | _ => none

/-- Go `time.leadingInt`: consume a leading run of decimal digits,
accumulating their value (overflow checking omitted: the magnitudes the
proxy meets are far below 2^63). -/
def leadingIntAux : Nat → List Char → Nat × List Char
  | acc, [] => (acc, [])
  | acc, c :: rest =>
    if c.isDigit then leadingIntAux (acc * 10 + (c.toNat - '0'.toNat)) rest
    else (acc, c :: rest)

/-- Go `time.leadingFraction`: consume fractional digits, also returning the
scale `10^k`. -/
def leadingFractionAux : Nat → Nat → List Char → Nat × Nat × List Char
  | f, scale, [] => (f, scale, [])
  | f, scale, c :: rest =>
    if c.isDigit then leadingFractionAux (f * 10 + (c.toNat - '0'.toNat)) (scale * 10) rest
    else (f, scale, c :: rest)

/-- Consume the unit token following a number in `time.ParseDuration` and
convert the accumulated value to nanoseconds.  Go computes the fractional
part in `float64`; this model uses exact integer division, which agrees
with Go whenever the division is exact (all inputs relevant here are
integral). -/
def parseDurStep (v f scale : Nat) (s : List Char) : Option (Nat × List Char) :=
  match s.takeWhile (fun c => !(c == '.' || c.isDigit)) with
  | [] => none
  | u =>
    match unitNanos (String.mk u) with
    | none => none
    | some unit =>
      some (v * unit + f * unit / scale, s.dropWhile (fun c => !(c == '.' || c.isDigit)))

/-- The main loop of `time.ParseDuration`: repeatedly read
`[0-9]*(\.[0-9]*)?unit`, adding nanoseconds into `d`.  `fuel` bounds the
number of iterations (each successful iteration consumes at least one
character, so `length + 1` suffices). -/
def parseDurationLoop : Nat → List Char → Nat → Option Nat
  | 0, _, _ => none
  | fuel + 1, s, d =>
    match s with
    | [] => some d
    | c :: _ =>
      if !(c == '.' || c.isDigit) then none
      else
        match leadingIntAux 0 s with
        | (v, s1) =>
          if s1.length = s.length then
            -- no integer digits: a fraction part is required
            match s1 with
            | '.' :: t =>
              match leadingFractionAux 0 1 t with
              | (f, scale, s2) =>
                if s2.length = t.length then none
                else
                  match parseDurStep v f scale s2 with
                  | none => none
                  | some (add, rest) => parseDurationLoop fuel rest (d + add)
            | _ => none
          else
            match s1 with
            | '.' :: t =>
              match leadingFractionAux 0 1 t with
              | (f, scale, s2) =>
                match parseDurStep v f scale s2 with
                | none => none
                | some (add, rest) => parseDurationLoop fuel rest (d + add)
            | _ =>
              match parseDurStep v 0 1 s1 with
              | none => none
              | some (add, rest) => parseDurationLoop fuel rest (d + add)

/-- Go `time.ParseDuration`, as `Option` of signed nanoseconds (`none` is
the error return; overflow checks omitted). -/
def goParseDuration : List Char → Option Int
  | '-' :: t =>
    if t = ['0'] then some 0
    else if t = [] then none
    else (parseDurationLoop (t.length + 1) t 0).map (fun d => -(d : Int))
  | '+' :: t =>
    if t = ['0'] then some 0
    else if t = [] then none
    else (parseDurationLoop (t.length + 1) t 0).map (fun d => (d : Int))
  | cs =>
    if cs = ['0'] then some 0
    else if cs = [] then none
    else (parseDurationLoop (cs.length + 1) cs 0).map (fun d => (d : Int))

/-- The token scan of `computeExpiry` (engine.go lines 206-214): for each
comma-separated part of the `Cache-Control` value, trim space; when the
lowercased part starts with `max-age=`, strip that prefix *from the
original-case part* and feed the remainder (with `"s"` appended) to
`time.ParseDuration`; the first part that parses decides the expiry. -/
def maxAgeFromParts : List (List Char) → Option Int
  | [] => none
  | p :: ps =>
    if "max-age=".data.isPrefixOf (toLowerChars (trimSpaceChars p)) then
      match goParseDuration (goTrimPre (trimSpaceChars p) "max-age=".data ++ "s".data) with
      | some d => some d
      | none => maxAgeFromParts ps
    else maxAgeFromParts ps

/-- The `computeExpiry` (engine.go lines 202-221).  The result is the offset
added to `now`: `some d` models `now.Add(d)` nanoseconds, `none` models
the zero `time.Time` (do not cache).  `routeTTLSeconds` is the route's
`cacheTTL` in seconds (`int64` in the source). -/
def computeExpiry (cacheControl : String) (routeTTLSeconds : Int) : Option Int :=
  match maxAgeFromParts (splitOnComma cacheControl.data) with
  | some d => some d
  | none =>
    if routeTTLSeconds > 0 then some (routeTTLSeconds * 1000000000) else none

/-- C5, the code bug at a mixed-case `max-age`.  `computeExpiry` lowercases
the token only for the prefix *test*; `strings.TrimPrefix` then fails to
strip `max-age=` from `"Max-Age=60"`, the parse of `"Max-Age=60s"` fails,
and the token is ignored — `Cache-Control: Max-Age=60` falls through to
the route TTL (or to "do not cache"), while the claim (and the evident
intent of the lowercased prefix test) gives `now + 60s`.  Lower-case
`max-age=60` behaves as the claim states. -/
theorem computeExpiry_mixed_case_ignored :
    computeExpiry "Max-Age=60" 0 = none ∧
    computeExpiry "Max-Age=60" 30 = some 30000000000 ∧
    computeExpiry "max-age=60" 0 = some 60000000000 ∧
    computeExpiry " max-age=60, private" 7 = some 60000000000 := by
  decide

/-! ## Director: `internal/proxy/director.go` (and its cluster-routed
variant)

Go strings are `List Char` here as well, so that every operation reduces
in the kernel.  The header map is an association list with Go's
canonical-cased keys (the director touches only `X-Forwarded-For`, always
written in canonical case in the source, so `textproto` key
canonicalisation is the identity on everything involved). -/

/-- The `http.Header.Get`: first value under the key, `""` when absent. -/
def headerGet (h : List (List Char × List (List Char))) (k : List Char) : List Char :=
  match h.find? (fun e => e.1 == k) with
  | some (_, v :: _) => v
  | _ => []

/-- The `http.Header.Set`: replace the key's values with the one given.  (Go's
map is unordered; the association list's order is immaterial to `Get`.) -/
def headerSet (h : List (List Char × List (List Char))) (k v : List Char) :
    List (List Char × List (List Char)) :=
  (k, [v]) :: h.filter (fun e => !(e.1 == k))

/-- The slice of `url.URL` the director reads or writes. -/
structure GoURL where
  scheme : List Char
  host : List Char
  path : List Char
  deriving Repr, DecidableEq

/-- The slice of `http.Request` the director reads or writes.  `req.Clone`
deep-copies the URL and the header map, so the clone is a plain value
copy here. -/
structure GoRequest where
  url : GoURL
  host : List Char
  requestURI : List Char
  remoteAddr : List Char
  header : List (List Char × List (List Char))
  deriving Repr, DecidableEq

/-- The `proxy.SimpleRoute` (director.go lines 12-17): `pre` is the `Prefix`
field; the `Upstream` URL contributes its scheme and host. -/
structure SimpleRoute where
  pre : List Char
  upstreamScheme : List Char
  upstreamHost : List Char
  cacheEnabled : Bool
  cacheTTL : Int
  deriving Repr, DecidableEq

/-- The `proxy.RouteMetadata` (engine.go lines 19-23). -/
structure RouteMetadata where
  upstreamName : List Char
  cacheEnabled : Bool
  cacheTTL : Int
  deriving Repr, DecidableEq

/-- First index of `c` in `s` (Go `bytealg.IndexByteString`). -/
def indexOfChar (s : List Char) (c : Char) : Option Nat :=
  List.findIdx? (fun x => x == c) s

/-- Last index of `c` in `s` (Go `last`). -/
def lastIndexOfChar (s : List Char) (c : Char) : Option Nat :=
  match List.findIdx? (fun x => x == c) s.reverse with
  | none => none
  | some j => some (s.length - 1 - j)

/-- First index at which `sub` occurs in `s` (Go `strings.Index`). -/
def indexOfSub (s sub : List Char) : Option Nat :=
  (List.range (s.length + 1)).find? (fun i => sub.isPrefixOf (s.drop i))

/-- Go `strings.Contains`. -/
def containsSub (s sub : List Char) : Bool :=
  (indexOfSub s sub).isSome

/-- The `net.SplitHostPort`'s two named error texts. -/
def missingPortMsg : List Char := "missing port in address".data

/-- See `missingPortMsg`. -/
def tooManyColonsMsg : List Char := "too many colons in address".data

/-- The `net.AddrError.Error()`: `"address " + Addr + ": " + Err`.  The
director matches on this full rendering with `strings.Contains`. -/
def addrErrMsg (addr why : List Char) : List Char :=
  "address ".data ++ addr ++ ": ".data ++ why

/-- Result of `net.SplitHostPort`: host and port, or the error message. -/
inductive SplitHostPortResult where
  | ok (host port : List Char)
  | err (msg : List Char)
  deriving Repr, DecidableEq

/-- The `net.SplitHostPort` (net/ipsock.go): the port starts after the last
colon; a leading `[` opens a bracketed (IPv6) host; stray brackets and
extra colons are rejected with the dedicated error texts. -/
def goSplitHostPort (hostport : List Char) : SplitHostPortResult :=
  match lastIndexOfChar hostport ':' with
  | none => .err (addrErrMsg hostport missingPortMsg)
  | some i =>
    if hostport.headD ' ' == '[' then
      match indexOfChar hostport ']' with
      | none => .err (addrErrMsg hostport "missing \x27]\x27 in address".data)
      | some e =>
        if e + 1 = hostport.length then .err (addrErrMsg hostport missingPortMsg)
        else if e + 1 = i then
          if (hostport.drop 1).contains '[' then
            .err (addrErrMsg hostport "unexpected \x27[\x27 in address".data)
          else if (hostport.drop (e + 1)).contains ']' then
            .err (addrErrMsg hostport "unexpected \x27]\x27 in address".data)
          else .ok ((hostport.take e).drop 1) (hostport.drop (i + 1))
        else if hostport.getD (e + 1) ' ' == ':' then
          .err (addrErrMsg hostport tooManyColonsMsg)
        else .err (addrErrMsg hostport missingPortMsg)
    else
      if (hostport.take i).contains ':' then .err (addrErrMsg hostport tooManyColonsMsg)
      else if hostport.contains '[' then
        .err (addrErrMsg hostport "unexpected \x27[\x27 in address".data)
      else if hostport.contains ']' then
        .err (addrErrMsg hostport "unexpected \x27]\x27 in address".data)
      else .ok (hostport.take i) (hostport.drop (i + 1))

/-- Lines 48-52 of director.go: when `RemoteAddr` contains `"://"`, strip
everything up to and including the first occurrence
(`strings.SplitN(rawAddr, "://", 2)[1]`). -/
def stripScheme (rawAddr : List Char) : List Char :=
  match indexOfSub rawAddr "://".data with
  | some i => rawAddr.drop (i + 3)
  | none => rawAddr

/-- The canonical `X-Forwarded-For` key. -/
def xffKey : List Char := "X-Forwarded-For".data

/-- Lines 54-59 of director.go: split the (scheme-stripped) address into
host and port; on success the client IP is the host; when the split error
message contains `"missing port in address"` the client IP is the
*original* `req.RemoteAddr` (not the scheme-stripped string); otherwise it
stays empty. -/
def clientIpOf (remoteAddr : List Char) : List Char :=
  match goSplitHostPort (stripScheme remoteAddr) with
  | .ok host _ => host
  | .err msg => if containsSub msg missingPortMsg then remoteAddr else []

/-- Lines 61-68 of director.go: append the client IP to an existing
`X-Forwarded-For` (read from the incoming request), or set it; leave the
header alone when no client IP was extracted.  Applied to the clone. -/
def applyXff (incoming : GoRequest) (outReq : GoRequest) : GoRequest :=
  if clientIpOf incoming.remoteAddr ≠ [] then
    if headerGet incoming.header xffKey ≠ [] then
      { outReq with
          header := headerSet outReq.header xffKey
            (headerGet incoming.header xffKey ++ ", ".data ++ clientIpOf incoming.remoteAddr) }
    else
      { outReq with
          header := headerSet outReq.header xffKey (clientIpOf incoming.remoteAddr) }
  else outReq

/-- The `SimpleDirector.Direct` (director.go lines 27-76): first-match route
lookup, clone, upstream URL rewrite, `X-Forwarded-For` construction.  The
result carries the incoming request as it stands after the call (the
source never writes through `req`), the outgoing clone, and the route
metadata; `none` is the "no route" error. -/
def direct (routes : List SimpleRoute) (req : GoRequest) :
    Option (GoRequest × GoRequest × RouteMetadata) :=
  match routes.find? (fun r => r.pre.isPrefixOf req.url.path) with
  | none => none
  | some route =>
    some (req,
      applyXff req
        { req with
            url := { req.url with scheme := route.upstreamScheme, host := route.upstreamHost },
            host := route.upstreamHost,
            requestURI := [] },
      { upstreamName := route.upstreamHost,
        cacheEnabled := route.cacheEnabled,
        cacheTTL := route.cacheTTL })

/-- The cluster-routed `SimpleRoute` variant of the director
(`ClusterName` in place of `Upstream`). -/
structure SimpleRouteCluster where
  pre : List Char
  clusterName : List Char
  cacheEnabled : Bool
  cacheTTL : Int
  deriving Repr, DecidableEq

/-- The cluster-routed `RouteMetadata` variant. -/
structure RouteMetadataCluster where
  routeName : List Char
  clusterName : List Char
  cacheEnabled : Bool
  cacheTTL : Int
  deriving Repr, DecidableEq

/-- The cluster-routed `SimpleDirector.Direct` variant: identical
client-IP / `X-Forwarded-For` code, no URL rewrite (the engine rewrites
after endpoint selection), metadata names the route and cluster. -/
def directCluster (routes : List SimpleRouteCluster) (req : GoRequest) :
    Option (GoRequest × GoRequest × RouteMetadataCluster) :=
  match routes.find? (fun r => r.pre.isPrefixOf req.url.path) with
  | none => none
  | some route =>
    some (req,
      applyXff req req,
      { routeName := route.pre,
        clusterName := route.clusterName,
        cacheEnabled := route.cacheEnabled,
        cacheTTL := route.cacheTTL })

/-- C6, the code bug.  For `RemoteAddr = "tcp://10.0.0.50"` (scheme, no
port), the split of the stripped string fails with "missing port in
address", and the source then assigns `clientIp = req.RemoteAddr` — the
*unstripped* original — so `X-Forwarded-For` becomes `"tcp://10.0.0.50"`,
not the claimed `"10.0.0.50"`.  The companion conjuncts check the
neighbouring behaviours the claim gets right: a bare IP without scheme,
a scheme-and-port address, and appending to an existing header. -/
theorem direct_xff_keeps_scheme_on_missing_port :
    (direct [⟨"/".data, "https".data, "backend".data, false, 0⟩]
        ⟨⟨"http".data, "example.com".data, "/x".data⟩, "example.com".data,
          "/x".data, "tcp://10.0.0.50".data, []⟩).map
      (fun r => headerGet r.2.1.header xffKey) = some "tcp://10.0.0.50".data ∧
    (direct [⟨"/".data, "https".data, "backend".data, false, 0⟩]
        ⟨⟨"http".data, "example.com".data, "/x".data⟩, "example.com".data,
          "/x".data, "10.0.0.25".data, []⟩).map
      (fun r => headerGet r.2.1.header xffKey) = some "10.0.0.25".data ∧
    (direct [⟨"/".data, "https".data, "backend".data, false, 0⟩]
        ⟨⟨"http".data, "example.com".data, "/x".data⟩, "example.com".data,
          "/x".data, "tcp://10.0.0.50:8080".data, []⟩).map
      (fun r => headerGet r.2.1.header xffKey) = some "10.0.0.50".data ∧
    (direct [⟨"/".data, "https".data, "backend".data, false, 0⟩]
        ⟨⟨"http".data, "example.com".data, "/x".data⟩, "example.com".data,
          "/x".data, "172.16.0.10:54321".data,
          [(xffKey, ["192.168.1.1, 10.0.0.5".data])]⟩).map
      (fun r => headerGet r.2.1.header xffKey) =
      some "192.168.1.1, 10.0.0.5, 172.16.0.10".data := by
  decide

/-- C10, confirmed.  Both `Direct` variants return the incoming request
unchanged: every write in the source goes through the clone (`req.Clone`
deep-copies the header map and URL), so the incoming request's header map,
URL, `Host` and `RequestURI` survive the call untouched. -/
theorem direct_frame (routes : List SimpleRoute) (routesC : List SimpleRouteCluster)
    (req : GoRequest) :
    (∀ res, direct routes req = some res → res.1 = req) ∧
    (∀ res, directCluster routesC req = some res → res.1 = req) := by
  constructor
  · intro res h
    unfold direct at h
    cases hfind : routes.find? (fun r => r.pre.isPrefixOf req.url.path) with
    | none => rw [hfind] at h; exact absurd h (by simp)
    | some route =>
      rw [hfind] at h
      cases h
      rfl
  · intro res h
    unfold directCluster at h
    cases hfind : routesC.find? (fun r => r.pre.isPrefixOf req.url.path) with
    | none => rw [hfind] at h; exact absurd h (by simp)
    | some route =>
      rw [hfind] at h
      cases h
      rfl

/-- Witness for C10 at a concrete request and one-route tables, for both
director variants. -/
theorem direct_frame_witness :
    ((⟨⟨"http".data, "h".data, "/a".data⟩, "h".data, "/a".data,
        "1.2.3.4:80".data, []⟩ : GoRequest),
      ((⟨⟨"s".data, "u".data, "/a".data⟩, "u".data, [],
        "1.2.3.4:80".data, [(xffKey, ["1.2.3.4".data])]⟩ : GoRequest),
       ({ upstreamName := "u".data, cacheEnabled := true, cacheTTL := 5 } : RouteMetadata))).1 =
      ⟨⟨"http".data, "h".data, "/a".data⟩, "h".data, "/a".data, "1.2.3.4:80".data, []⟩ ∧
    ((⟨⟨"http".data, "h".data, "/a".data⟩, "h".data, "/a".data,
        "1.2.3.4:80".data, []⟩ : GoRequest),
      ((⟨⟨"http".data, "h".data, "/a".data⟩, "h".data, "/a".data,
        "1.2.3.4:80".data, [(xffKey, ["1.2.3.4".data])]⟩ : GoRequest),
       ({ routeName := "/a".data, clusterName := "c".data, cacheEnabled := true,
          cacheTTL := 5 } : RouteMetadataCluster))).1 =
      ⟨⟨"http".data, "h".data, "/a".data⟩, "h".data, "/a".data, "1.2.3.4:80".data, []⟩ :=
  ⟨(direct_frame [⟨"/a".data, "s".data, "u".data, true, 5⟩] [] _).1 _ (by decide),
   (direct_frame [] [⟨"/a".data, "c".data, true, 5⟩] _).2 _ (by decide)⟩

/-! ## IP-filter middleware (`middleware` package) -/

/-- Go `net.dtoi`: consume leading decimal digits, returning the value and
the number of characters consumed (overflow cap irrelevant at these
magnitudes). -/
def dtoiAux : Nat → Nat → List Char → Nat × Nat
  | n, used, [] => (n, used)
  | n, used, c :: rest =>
    if c.isDigit then dtoiAux (n * 10 + (c.toNat - 48)) (used + 1) rest
    else (n, used)

/-- Go `net.parseIPv4`'s field loop: `k` fields remain; a `.` separator is
required before every field but the first; each field must have at least
one digit, value ≤ 255, and no leading zero. -/
def parseIPv4Fields : Nat → List Char → List Nat → Option (List Nat)
  | 0, s, acc => if s = [] then some acc.reverse else none
  | k + 1, s, acc =>
    match (if acc = [] then some s else
        match s with
        | '.' :: t => some t
        | _ => none) with
    | none => none
    | some s1 =>
      match dtoiAux 0 0 s1 with
      | (n, used) =>
        if used = 0 then none
        else if 255 < n then none
        else if 1 < used && s1.headD ' ' == '0' then none
        else parseIPv4Fields k (s1.drop used) (n :: acc)

/-- Go `net.ParseIP`, scanning for the first `.` or `:` to choose the
parser.  The IPv4 branch is modelled fully; the IPv6 branch (first special
character a colon) is outside this model and yields `none` — every
middleware theorem below that is not about a concrete IPv4 input is
parametric in the parser, so nothing depends on this restriction. -/
def goParseIP (s : List Char) : Option (List Nat) :=
  match s.find? (fun c => c == '.' || c == ':') with
  | some c => if c == '.' then parseIPv4Fields 4 s [] else none
  | none => none

/-- A parsed CIDR network (`net.IPNet`): base address bytes and mask
bytes, as produced by `net.ParseCIDR`. -/
structure IPNet where
  base : List Nat
  mask : List Nat
  deriving Repr, DecidableEq

/-- The `net.IPNet.Contains` for 4-byte addresses: every address byte masked
by the network mask must equal the base byte. -/
def ipnetContains (n : IPNet) (ip : List Nat) : Bool :=
  ip.length = n.base.length && ip.length = n.mask.length &&
    (List.zip ip (List.zip n.base n.mask)).all
      (fun t => t.1 &&& t.2.2 == t.2.1)

/-- The client-IP fallback of `extractClientIP` (middleware, lines
129-133): split `RemoteAddr`; on success parse the host, on *any* split
error parse the whole `RemoteAddr`. -/
def remoteIP (parseIP : List Char → Option (List Nat)) (remoteAddr : List Char) :
    Option (List Nat) :=
  match goSplitHostPort remoteAddr with
  | .ok host _ => parseIP host
  | .err _ => parseIP remoteAddr

/-- The `ipFilter.extractClientIP` (middleware, lines 118-134), parametric in
the IP parser it calls: when `X-Forwarded-For` is non-empty, try the
trimmed first comma-separated token; if that parses, use it — otherwise
*fall back* to `RemoteAddr` (this fallback is what corrects the claim). -/
def extractClientIP (parseIP : List Char → Option (List Nat))
    (xff remoteAddr : List Char) : Option (List Nat) :=
  if xff ≠ [] then
    match splitOnComma xff with
    | [] => remoteIP parseIP remoteAddr
    | p :: _ =>
      match parseIP (trimSpaceChars p) with
      | some ip => some ip
      | none => remoteIP parseIP remoteAddr
  else remoteIP parseIP remoteAddr

/-- The decision of `ipFilter.middleware` (middleware, lines 93-116): no
client IP ⇒ pass through; otherwise 403 iff some configured network
contains the IP. -/
inductive FilterOutcome where
  | passThrough
  | blocked
  deriving Repr, DecidableEq

/-- See `FilterOutcome`. -/
def ipFilterOutcome (parseIP : List Char → Option (List Nat)) (nets : List IPNet)
    (xff remoteAddr : List Char) : FilterOutcome :=
  match extractClientIP parseIP xff remoteAddr with
  | none => .passThrough
  | some ip => if nets.any (fun n => ipnetContains n ip) then .blocked else .passThrough

/-- The `splitOnComma` always yields at least one token. -/
theorem splitOnComma_ne_nil (s : List Char) : splitOnComma s ≠ [] := by
  cases s with
  | nil => simp [splitOnComma]
  | cons c rest =>
    unfold splitOnComma
    split
    · simp
    · split
      · simp
      · simp

/-- C7, corrected.  For any IP parser and any network list: (a) whenever no
client IP can be derived, the filter passes the request through (fail-open,
never 403); (b) but a non-empty `X-Forwarded-For` whose first trimmed
token does not parse makes the filter fall back to `RemoteAddr` — it does
*not* unconditionally pass through, which is the corrected part of the
claim. -/
theorem ipFilter_fail_open (parseIP : List Char → Option (List Nat))
    (nets : List IPNet) (xff remoteAddr : List Char) :
    (extractClientIP parseIP xff remoteAddr = none →
      ipFilterOutcome parseIP nets xff remoteAddr = .passThrough) ∧
    (xff ≠ [] → parseIP (trimSpaceChars ((splitOnComma xff).headD [])) = none →
      extractClientIP parseIP xff remoteAddr = remoteIP parseIP remoteAddr) := by
  constructor
  · intro h
    unfold ipFilterOutcome
    rw [h]
  · intro hxff hfirst
    unfold extractClientIP
    rw [if_pos hxff]
    cases hsplit : splitOnComma xff with
    | nil => exact absurd hsplit (splitOnComma_ne_nil xff)
    | cons p ps =>
      rw [hsplit, List.headD_cons] at hfirst
      dsimp only
      rw [hfirst]

/-- Witness for C7's corrected theorem: an unparseable `X-Forwarded-For`
token together with an unparseable `RemoteAddr` passes through, and the
extraction equals the `RemoteAddr` fallback. -/
theorem ipFilter_fail_open_witness :
    (ipFilterOutcome goParseIP [⟨[10, 0, 0, 0], [255, 0, 0, 0]⟩]
        "garbage".data "nonsense".data = FilterOutcome.passThrough) ∧
    (extractClientIP goParseIP "garbage".data "nonsense".data =
      remoteIP goParseIP "nonsense".data) :=
  ⟨(ipFilter_fail_open goParseIP [⟨[10, 0, 0, 0], [255, 0, 0, 0]⟩]
      "garbage".data "nonsense".data).1 (by decide),
   (ipFilter_fail_open goParseIP [⟨[10, 0, 0, 0], [255, 0, 0, 0]⟩]
      "garbage".data "nonsense".data).2 (by decide) (by decide)⟩

/-- C7, counterexample to the claim as stated: `X-Forwarded-For` is present
with an unparseable first token, yet the request is *not* passed through —
the filter falls back to `RemoteAddr = "10.1.2.3:80"`, which lies in the
blocked `10.0.0.0/8`, and answers 403. -/
theorem ipFilter_xff_fallback_counterexample :
    ipFilterOutcome goParseIP [⟨[10, 0, 0, 0], [255, 0, 0, 0]⟩]
      "garbage".data "10.1.2.3:80".data = FilterOutcome.blocked := by
  decide

/-! ## In-memory response cache: `cache.InMemoryCache`
(src/unnamed/part_003 lines 83-213)

The Go structure is a map from key to `*entry` plus a doubly-linked
recency list threaded through the entries, head = most recently used.
Both are represented here as one association list in head-to-tail order:
the list *is* the linked list, and the map is its key set (the two hold
identical key sets — every map insert/delete is paired with a list
link/unlink in the source, and keys in the list are unique because `Set`
inserts only keys the map lacks). -/

/-- The `cache.CachedResponse` (cache.go lines 9-14); `expiresAt = 0` models
the zero `time.Time`. -/
structure CachedResponse where
  statusCode : Nat
  header : List (List Char × List (List Char))
  body : List Char
  expiresAt : Nat
  deriving Repr, DecidableEq

/-- The `cache.InMemoryCache` state (part_003 lines 98-104): the bound
`maxEntries`, and `items` standing for the map plus the recency list,
most-recently-used first. -/
structure InMemoryCache where
  maxEntries : Nat
  items : List (List Char × CachedResponse)
  deriving Repr, DecidableEq

/-- The `NewInMemoryCache` (part_003 lines 106-114): non-positive
`maxEntries` defaults to 1024. -/
def newInMemoryCache (n : Int) : InMemoryCache :=
  { maxEntries := if n ≤ 0 then 1024 else n.toNat, items := [] }

/-- Unlink an entry and delete its key (`c.remove(e)` followed by
`delete(c.items, key)` in the source).  With unique keys, filtering the
key out is exactly the one unlink + map delete. -/
def removeKey (items : List (List Char × CachedResponse)) (k : List Char) :
    List (List Char × CachedResponse) :=
  items.filter (fun e => !(e.1 == k))

/-- The `InMemoryCache.Get` (part_003 lines 116-134): miss on an absent
key; an expired entry (`!ExpiresAt.IsZero() && time.Now().After(ExpiresAt)`)
is removed and reported as a miss; otherwise the entry moves to the front
(`moveToFront`) and its response is returned. -/
def cacheGet (c : InMemoryCache) (k : List Char) (now : Nat) :
    Option CachedResponse × InMemoryCache :=
  match c.items.find? (fun e => e.1 == k) with
  | none => (none, c)
  | some e =>
    if e.2.expiresAt ≠ 0 ∧ e.2.expiresAt < now then
      (none, { c with items := removeKey c.items k })
    else
      (some e.2, { c with items := (k, e.2) :: removeKey c.items k })

/-- The `InMemoryCache.Set` (part_003 lines 136-156): an existing key gets
the new response and moves to the front (`e.resp = resp; moveToFront(e)`
— covering `moveToFront`'s already-at-head early return — and *without*
a bound check); a new key is added at the front, and if the size now
exceeds `maxEntries`, `evictOldest` (lines 205-212) unlinks the single
tail entry. -/
def cacheSet (c : InMemoryCache) (k : List Char) (v : CachedResponse) :
    InMemoryCache :=
  match c.items.find? (fun e => e.1 == k) with
  | some _ => { c with items := (k, v) :: removeKey c.items k }
  | none =>
    if c.maxEntries < ((k, v) :: c.items).length then
      { c with items := ((k, v) :: c.items).dropLast }
    else
      { c with items := (k, v) :: c.items }

/-- The `InMemoryCache.Delete` (part_003 lines 158-168): early return on an
absent key, otherwise unlink and delete. -/
def cacheDelete (c : InMemoryCache) (k : List Char) : InMemoryCache :=
  match c.items.find? (fun e => e.1 == k) with
  | none => c
  | some _ => { c with items := removeKey c.items k }

/-- The cache operations; `get` records the instant `time.Now()` observed
inside the call. -/
inductive CacheOp where
  | get (k : List Char) (now : Nat)
  | set (k : List Char) (v : CachedResponse)
  | del (k : List Char)
  deriving Repr, DecidableEq

/-- Apply one cache operation (the cache's single mutex serialises them). -/
def cacheStep (c : InMemoryCache) : CacheOp → InMemoryCache
  | .get k now => (cacheGet c k now).2
  | .set k v => cacheSet c k v
  | .del k => cacheDelete c k

/-- Apply a sequence of cache operations in order. -/
def cacheRun (c : InMemoryCache) (ops : List CacheOp) : InMemoryCache :=
  ops.foldl cacheStep c

/-- Removing a found key strictly shrinks the list. -/
theorem length_removeKey_lt_of_find?
    (items : List (List Char × CachedResponse)) (k : List Char) (e)
    (h : items.find? (fun x => x.1 == k) = some e) :
    (removeKey items k).length < items.length := by
  induction items with
  | nil => exact absurd h (by simp)
  | cons a t ih =>
    unfold removeKey List.filter
    by_cases ha : (a.1 == k) = true
    · rw [ha]
      exact Nat.lt_succ_of_le (List.length_filter_le _ t)
    · rw [List.find?_cons_of_neg _ (by simpa using ha)] at h
      simp only [Bool.not_eq_true] at ha
      rw [ha]
      exact Nat.succ_lt_succ (ih h)

/-- The `cacheStep` keeps the configured bound itself unchanged. -/
theorem cacheStep_maxEntries (c : InMemoryCache) (op : CacheOp) :
    (cacheStep c op).maxEntries = c.maxEntries := by
  cases op with
  | get k now =>
    show (cacheGet c k now).2.maxEntries = c.maxEntries
    unfold cacheGet
    cases c.items.find? (fun e => e.1 == k) with
    | none => rfl
    | some e =>
      dsimp only
      split
      · rfl
      · rfl
  | set k v =>
    show (cacheSet c k v).maxEntries = c.maxEntries
    unfold cacheSet
    cases c.items.find? (fun e => e.1 == k) with
    | some e => rfl
    | none =>
      dsimp only
      split
      · rfl
      · rfl
  | del k =>
    show (cacheDelete c k).maxEntries = c.maxEntries
    unfold cacheDelete
    cases c.items.find? (fun e => e.1 == k) with
    | none => rfl
    | some e => rfl

/-- One cache operation keeps the entry count within the bound:
`Get`/`Delete` only shrink or reorder, an overwriting `Set` keeps the
size, and an inserting `Set` that overflows evicts the one tail entry —
restoring the bound because it held before the insertion. -/
theorem cacheStep_bounded (c : InMemoryCache) (op : CacheOp)
    (h : c.items.length ≤ c.maxEntries) :
    (cacheStep c op).items.length ≤ (cacheStep c op).maxEntries := by
  rw [cacheStep_maxEntries]
  cases op with
  | get k now =>
    show (cacheGet c k now).2.items.length ≤ c.maxEntries
    unfold cacheGet
    cases hfind : c.items.find? (fun e => e.1 == k) with
    | none => exact h
    | some e =>
      dsimp only
      split
      · exact le_trans (List.length_filter_le _ _) h
      · exact le_trans (length_removeKey_lt_of_find? c.items k e hfind) h
  | set k v =>
    show (cacheSet c k v).items.length ≤ c.maxEntries
    unfold cacheSet
    cases hfind : c.items.find? (fun e => e.1 == k) with
    | some e =>
      dsimp only
      have hlt := length_removeKey_lt_of_find? c.items k e hfind
      have hc : ((k, v) :: removeKey c.items k).length =
          (removeKey c.items k).length + 1 := rfl
      omega
    | none =>
      dsimp only
      split
      · next hover =>
        show (((k, v) :: c.items).dropLast).length ≤ c.maxEntries
        have hd : (((k, v) :: c.items).dropLast).length =
            ((k, v) :: c.items).length - 1 := List.length_dropLast _
        have hc : ((k, v) :: c.items).length = c.items.length + 1 := rfl
        omega
      · next hnot =>
        show ((k, v) :: c.items).length ≤ c.maxEntries
        have hc : ((k, v) :: c.items).length = c.items.length + 1 := rfl
        omega
  | del k =>
    show (cacheDelete c k).items.length ≤ c.maxEntries
    unfold cacheDelete
    cases c.items.find? (fun e => e.1 == k) with
    | none => exact h
    | some e => exact le_trans (List.length_filter_le _ _) h

/-- C8, confirmed.  Starting from the empty cache produced by
`NewInMemoryCache`, after any sequence of `Get` / `Set` / `Delete`
operations the number of stored entries is at most the effective
`maxEntries` bound. -/
theorem cache_len_le_maxEntries (n : Int) (ops : List CacheOp) :
    (cacheRun (newInMemoryCache n) ops).items.length ≤
      (newInMemoryCache n).maxEntries := by
  have key : ∀ (l : List CacheOp) (c : InMemoryCache),
      c.items.length ≤ c.maxEntries →
      (cacheRun c l).items.length ≤ c.maxEntries := by
    intro l
    induction l with
    | nil => intro c h; exact h
    | cons op l ih =>
      intro c h
      have hstep := cacheStep_bounded c op h
      have := ih (cacheStep c op) hstep
      rw [cacheStep_maxEntries] at this
      exact this
  exact key ops (newInMemoryCache n) (by simp [newInMemoryCache])

/-- After a `Set`, the written pair sits at the head of the recency list:
an overwrite moves it to the front; an insert adds it at the front, and
`evictOldest` removes only the tail, which is a different entry whenever
the bound is positive. -/
theorem cacheSet_head (c : InMemoryCache) (k : List Char) (v : CachedResponse)
    (hmax : 0 < c.maxEntries) :
    ∃ t, (cacheSet c k v).items = (k, v) :: t := by
  unfold cacheSet
  cases hfind : c.items.find? (fun e => e.1 == k) with
  | some e => exact ⟨removeKey c.items k, rfl⟩
  | none =>
    dsimp only
    split
    · next hover =>
      have hne : c.items ≠ [] := by
        intro hnil
        rw [hnil] at hover
        simp at hover
        omega
      rw [List.dropLast_cons_of_ne_nil hne]
      exact ⟨c.items.dropLast, rfl⟩
    · exact ⟨c.items, rfl⟩

/-- C9, corrected.  `Set(k, v)` immediately followed by `Get(k)` — no
intervening mutation of `k` — returns `(v, true)` *provided `v` is not
already expired at the `Get`'s instant* (`expiresAt` zero or
`now ≤ expiresAt`); an expired value is evicted by the `Get` and reported
as a miss. -/
theorem cache_set_get_roundtrip (c : InMemoryCache) (k : List Char)
    (v : CachedResponse) (now : Nat) (hmax : 0 < c.maxEntries)
    (hfresh : v.expiresAt = 0 ∨ now ≤ v.expiresAt) :
    (cacheGet (cacheSet c k v) k now).1 = some v := by
  obtain ⟨t, ht⟩ := cacheSet_head c k v hmax
  unfold cacheGet
  rw [ht, List.find?_cons_of_pos _ (by simp)]
  dsimp only
  rw [if_neg (by rcases hfresh with h | h <;> omega)]

/-- Witness for C9's corrected theorem: a fresh entry with no expiry
round-trips. -/
theorem cache_set_get_roundtrip_witness :
    (cacheGet (cacheSet (newInMemoryCache 10) "k".data ⟨200, [], "hello".data, 0⟩)
      "k".data 99).1 = some ⟨200, [], "hello".data, 0⟩ :=
  cache_set_get_roundtrip (newInMemoryCache 10) "k".data ⟨200, [], "hello".data, 0⟩ 99
    (by decide) (by decide)

/-- C9, counterexample to the claim as stated: a value whose `expiresAt`
lies before the `Get`'s instant is evicted on lookup, so the round-trip
yields a miss, not `(v, true)` — even though `k` suffered no intervening
mutation. -/
theorem cache_set_get_expired_counterexample :
    (cacheGet (cacheSet (newInMemoryCache 10) "k".data ⟨200, [], "b".data, 1⟩)
      "k".data 2).1 = none := by
  decide

end Warpgate
